import Mathlib

/-!
Verification of the Monad NFT staking dApp: a shallow embedding of the
client-side reconciliation / RPC-retry / transaction logic of src/src/App.tsx
and of the Solidity contracts in src/monad-nft-project/src/MonadNFT.sol
(the MonadNFT ERC721 collection and the NFTStaking contract), together with
theorems settling the specification claims.

Conventions of the embedding:
* addresses and token ids are natural numbers;
* an RPC call that may throw is a value of `CallResult`;
* JavaScript fractional arithmetic (backoff delays) is modelled over the
  rationals; Solidity `uint256` arithmetic over the natural numbers, with
  explicit error branches where solc 0.8 checked arithmetic would revert;
* each definition carries the name of the source function it embeds.
-/

namespace App

/-- Outcome of one invocation of a wrapped asynchronous operation: either a
resolved value or a rejection carrying the error message. -/
inductive RpcOutcome (α : Type) where
| ok (v : α)
| fail (msg : String)
deriving DecidableEq

/-- Whether the outcome resolved (did not throw). -/
def RpcOutcome.isOk {α : Type} : RpcOutcome α → Bool
| .ok _ => true
| .fail _ => false

/-- True when the pattern occurs somewhere inside the string
(the embedding of JavaScript `String.prototype.includes`). -/
def strContains (s pat : String) : Bool :=
  2 ≤ (s.splitOn pat).length

/-- The rate-limit classification of safeRpcCall (App.tsx lines 69-73):
the message contains 429, rate limit, or too many requests. -/
def isRateLimitError (msg : String) : Bool :=
  strContains msg "429" || strContains msg "rate limit" || strContains msg "too many requests"

/-- Observable behaviour of one run of the resilient RPC caller: the final
outcome, how many times the wrapped operation was invoked, the backoff delay
awaited before each retry (in milliseconds), and the console log lines. -/
structure RpcRun (α : Type) where
  result : RpcOutcome α
  calls : Nat
  delays : List ℚ
  logs : List String
deriving DecidableEq

/-- Loop body of safeRpcCall (App.tsx lines 60-96).  `op i` is the outcome of
the i-th invocation of the wrapped operation, `jitter i` the value drawn for
`Math.random() * 500` before the retry following attempt `i`; the recursion is
on the number of remaining attempts, with `attempt = maxAttempts - remaining`. -/
def safeRpcGo {α : Type} (op : Nat → RpcOutcome α) (name : String) (jitter : Nat → ℚ)
    (maxAttempts : Nat) : Nat → Nat → RpcRun α
| 0, _ =>
  ⟨.fail ("Failed after " ++ toString maxAttempts ++ " attempts"), 0, [], []⟩
| remaining + 1, attempt =>
  match op attempt with
  | .ok v =>
    ⟨.ok v, 1, [],
      if 0 < attempt then [name ++ " succeeded on attempt " ++ toString (attempt + 1)] else []⟩
  | .fail msg =>
    let warnLine := "Attempt " ++ toString (attempt + 1) ++ "/" ++ toString maxAttempts ++
      " failed for " ++ name ++ ": " ++
      (if isRateLimitError msg then "Rate limit exceeded" else msg)
    if remaining = 0 then
      ⟨.fail msg, 1, [],
        [warnLine, "All " ++ toString maxAttempts ++ " attempts failed for " ++ name]⟩
    else
      let d : ℚ := 1000 * (3 / 2 : ℚ) ^ attempt + jitter attempt
      let rest := safeRpcGo op name jitter maxAttempts remaining (attempt + 1)
      ⟨rest.result, rest.calls + 1, d :: rest.delays, warnLine :: rest.logs⟩

/-- safeRpcCall (App.tsx lines 60-96): invoke the operation up to `maxAttempts`
times, backing off `1000 * 1.5 ^ attempt + jitter` between attempts, rethrowing
the last error once attempts are exhausted. -/
def safeRpcCall {α : Type} (op : Nat → RpcOutcome α) (name : String) (jitter : Nat → ℚ)
    (maxAttempts : Nat) : RpcRun α :=
  safeRpcGo op name jitter maxAttempts maxAttempts 0

/-- Result of a contract call in the reconciliation engine: the resolved value,
or an error thrown (after safeRpcCall exhausted its attempts).  The engine's
catch blocks never inspect the thrown error, so it carries no data. -/
inductive CallResult (α : Type) where
| ok (v : α)
| err
deriving DecidableEq

/-- A web3 call may resolve to an array of token ids or to a single value;
loadStakedNFTs handles both shapes (App.tsx lines 1468-1476). -/
inductive ContractRet where
| list (xs : List Nat)
| single (n : Nat)
deriving DecidableEq

/-- The chain responses visible to loadStakedNFTs for one reconciliation pass:
one slot per contract method the engine may consult. -/
structure StakeEnv where
  getStakedTokens : CallResult ContractRet
  stakedNFTs : CallResult Nat
  getStaked : CallResult ContractRet
  stakedTokens : CallResult ContractRet
  isStaker : CallResult Bool
  stakerToTokenId : CallResult Nat
  stakingBalance : CallResult Nat
  stakingTokenAt : Nat → CallResult Nat
  tokenIdToStaker : Nat → CallResult Nat
  isStakedTok : Nat → CallResult Bool
  stakerOf : Nat → CallResult Nat

/-- Per-token ownership probe of the brute-force step (App.tsx lines 1595-1666):
for token index `i` owned by the staking contract, resolve the token id and
check whether the user staked it, first via the tokenIdToStaker mapping, then
via the isStaked / stakerOf pair. -/
def bruteCheck (env : StakeEnv) (user i : Nat) : Option Nat :=
  match env.stakingTokenAt i with
  | .err => none
  | .ok tid =>
    let viaMapping : Bool :=
      match env.tokenIdToStaker tid with
      | .ok st => st == user
      | .err => false
    let viaPair : Bool :=
      if viaMapping then false
      else
        match env.isStakedTok tid with
        | .ok true =>
          match env.stakerOf tid with
          | .ok st => st == user
          | .err => false
        | .ok false => false
        | .err => false
    if viaMapping || viaPair then some tid else none

/-- Brute-force enumeration step of loadStakedNFTs (App.tsx lines 1580-1676):
enumerate every token owned by the staking contract and keep the ones the
user staked; an error reading the balance aborts the step with no tokens. -/
def bruteForceIds (env : StakeEnv) (user : Nat) : List Nat :=
  match env.stakingBalance with
  | .err => []
  | .ok b => (List.range b).filterMap (bruteCheck env user)

/-- Outcome of the staked-token discovery of loadStakedNFTs: the raw id list,
which lookup method produced it (1-7, as numbered in the specification), and
which methods were consulted, in order. -/
structure Discovery where
  ids : List Nat
  methodUsed : Option Nat
  consulted : List Nat
deriving DecidableEq

/-- The try/catch chain over contract lookup methods 1-5 of loadStakedNFTs
(App.tsx lines 1459-1576).  Method 2 runs only in the catch handler of
method 1, method 3 only in the catch handler of method 2, and so on; a lookup
that resolves (even with no tokens) therefore ends the chain. -/
def contractStepIds (env : StakeEnv) : List Nat × Option Nat × List Nat :=
  match env.getStakedTokens with
  | .ok (.list xs) => if xs.isEmpty then ([], none, [1]) else (xs, some 1, [1])
  | .ok (.single n) => if n ≠ 0 then ([n], some 1, [1]) else ([], none, [1])
  | .err =>
    match env.stakedNFTs with
    | .ok n => if 0 < n then ([n], some 2, [1, 2]) else ([], none, [1, 2])
    | .err =>
      match env.getStaked with
      | .ok (.list xs) => if xs.isEmpty then ([], none, [1, 2, 3]) else (xs, some 3, [1, 2, 3])
      | .ok (.single n) => if 0 < n then ([n], some 3, [1, 2, 3]) else ([], none, [1, 2, 3])
      | .err =>
        match env.stakedTokens with
        | .ok (.list xs) =>
          if xs.isEmpty then ([], none, [1, 2, 3, 4]) else (xs, some 4, [1, 2, 3, 4])
        | .ok (.single n) =>
          if 0 < n then ([n], some 4, [1, 2, 3, 4]) else ([], none, [1, 2, 3, 4])
        | .err =>
          match env.isStaker with
          | .ok true =>
            match env.stakerToTokenId with
            | .ok n =>
              if 0 < n then ([n], some 5, [1, 2, 3, 4, 5]) else ([], none, [1, 2, 3, 4, 5])
            | .err => ([], none, [1, 2, 3, 4, 5])
          | .ok false => ([], none, [1, 2, 3, 4, 5])
          | .err => ([], none, [1, 2, 3, 4, 5])

/-- Staked-token discovery of loadStakedNFTs (App.tsx lines 1455-1692):
the contract-method chain, then the brute-force step when it produced nothing,
then the stale-cache fallback (`cached` is the token id list of the previous
in-memory StakedSet). -/
def loadStakedNFTs (env : StakeEnv) (user : Nat) (cached : List Nat) : Discovery :=
  let step1 := contractStepIds env
  let step2 :=
    if step1.1.isEmpty then
      let bf := bruteForceIds env user
      (bf, if bf.isEmpty then none else some 6, step1.2.2 ++ [6])
    else step1
  if step2.1.isEmpty then ⟨cached, some 7, step2.2.2 ++ [7]⟩
  else ⟨step2.1, step2.2.1, step2.2.2⟩

/-- The deduplication pass over the discovered staked token ids
(App.tsx lines 1758-1773): keep the first occurrence of each id. -/
def dedupFirst (l : List Nat) : List Nat :=
  l.foldl (fun acc x => if x ∈ acc then acc else acc ++ [x]) []

/-- Token ids of the StakedSet produced by one run of loadStakedNFTs:
an empty discovery clears the set (App.tsx lines 1688-1692), otherwise the
deduplicated discovered ids are materialized (lines 1758-1776). -/
def stakedSetIds (env : StakeEnv) (user : Nat) (cached : List Nat) : List Nat :=
  let d := loadStakedNFTs env user cached
  if d.ids.isEmpty then [] else dedupFirst d.ids

/-- Chain responses visible to loadNFTsFromBlockchain: the wallet's NFT
balance and the token at each enumeration index. -/
structure OwnedEnv where
  balance : CallResult Nat
  tokenAt : Nat → CallResult Nat

/-- Token ids of the OwnedSet produced by loadNFTsFromBlockchain
(App.tsx lines 1322-1443): read the balance, then enumerate each index,
skipping indices whose fetch failed; a balance read failure clears the set. -/
def loadNFTsFromBlockchain (env : OwnedEnv) : List Nat :=
  match env.balance with
  | .err => []
  | .ok b =>
    if b = 0 then []
    else
      (List.range b).filterMap (fun i =>
        match env.tokenAt i with
        | .ok t => some t
        | .err => none)

/-- One full reconciliation pass (refreshAllNFTData, App.tsx lines 1786-1812):
rebuild the OwnedSet then the StakedSet; returns their token id lists. -/
def refreshAllNFTData (oenv : OwnedEnv) (senv : StakeEnv) (user : Nat)
    (cached : List Nat) : List Nat × List Nat :=
  (loadNFTsFromBlockchain oenv, stakedSetIds senv user cached)

/-- loadAccurateNFTData (App.tsx lines 1888-1926): read getTotalStakedNFTs
first, then run the owned and staked loads; a failure of the total-staked read
aborts the pass before either set is rebuilt. -/
def loadAccurateNFTData (totalStakedRead : CallResult Nat) (oenv : OwnedEnv)
    (senv : StakeEnv) (user : Nat) (cached : List Nat) :
    Option (Nat × List Nat × List Nat) :=
  match totalStakedRead with
  | .err => none
  | .ok total => some (total, loadNFTsFromBlockchain oenv, stakedSetIds senv user cached)

/-- What lookup method `m` of the staked-token discovery yields on this
environment, independently of whether the engine consults it: the token id
list the specification calls the method's result (empty when the call throws,
resolves empty, or resolves to a non-positive single value). -/
def methodYield (env : StakeEnv) (user : Nat) (cached : List Nat) : Nat → List Nat
| 1 =>
  match env.getStakedTokens with
  | .ok (.list xs) => xs
  | .ok (.single n) => if n ≠ 0 then [n] else []
  | .err => []
| 2 =>
  match env.stakedNFTs with
  | .ok n => if 0 < n then [n] else []
  | .err => []
| 3 =>
  match env.getStaked with
  | .ok (.list xs) => xs
  | .ok (.single n) => if 0 < n then [n] else []
  | .err => []
| 4 =>
  match env.stakedTokens with
  | .ok (.list xs) => xs
  | .ok (.single n) => if 0 < n then [n] else []
  | .err => []
| 5 =>
  match env.isStaker with
  | .ok true =>
    match env.stakerToTokenId with
    | .ok n => if 0 < n then [n] else []
    | .err => []
  | .ok false => []
  | .err => []
| 6 => bruteForceIds env user
| 7 => cached
| _ => []

/-- Whether the contract call behind lookup method `m` (1-4) threw: this is
what sends the engine into the catch handler where method `m + 1` lives. -/
def methodThrew (env : StakeEnv) : Nat → Prop
| 1 => env.getStakedTokens = .err
| 2 => env.stakedNFTs = .err
| 3 => env.getStaked = .err
| 4 => env.stakedTokens = .err
| _ => False

/-- Error classes raised by the client transaction flows (spec section 7). -/
inductive ClientErr where
| validation (msg : String)
| ownershipMismatch (msg : String)
| rpcFailure (msg : String)
| txReverted (msg : String)
deriving DecidableEq

/-- Whether an error is of the OwnershipMismatch class. -/
def ClientErr.isOwnershipMismatch : ClientErr → Bool
| .ownershipMismatch _ => true
| _ => false

/-- A write transaction submitted by the client: the ERC721 approve call
(to the NFT contract) or the stake call (to the staking contract). -/
inductive WriteCall where
| approve (tokenId : Nat)
| stakeWrite (tokenId : Nat)
deriving DecidableEq

/-- Whether the write targets the staking contract. -/
def WriteCall.toStakingContract : WriteCall → Bool
| .approve _ => false
| .stakeWrite _ => true

/-- Chain behaviour visible to the stake flows: read responses, and whether
each submitted write transaction goes through or throws (a revert surfaces as
a thrown provider error). -/
structure TxEnv where
  ownerOf : Nat → CallResult Nat
  getApproved : Nat → CallResult Nat
  approveOk : Nat → Bool
  stakeOk : Nat → Bool

/-- Observable behaviour of one client stake flow: the write transactions
submitted, in order, and the final result. -/
structure TxRun where
  writes : List WriteCall
  result : Except ClientErr Unit

/-- quickStakeNFT (App.tsx lines 2101-2184): parse the entered id (`none`
stands for a missing or non-numeric input), check ownerOf against the caller,
check getApproved and approve if needed, then submit the stake call.  The
ownership check precedes every write. -/
def quickStakeNFT (env : TxEnv) (user stakingAddr : Nat) (input : Option Int) : TxRun :=
  match input with
  | none => ⟨[], .error (.validation "Invalid NFT ID")⟩
  | some z =>
    if z < 0 then ⟨[], .error (.validation "Invalid NFT ID")⟩
    else
      let id := z.toNat
      match env.ownerOf id with
      | .err => ⟨[], .error (.rpcFailure "Check owner of NFT")⟩
      | .ok o =>
        if o ≠ user then ⟨[], .error (.ownershipMismatch "You do not own this NFT")⟩
        else
          match env.getApproved id with
          | .err => ⟨[], .error (.rpcFailure "Check approval for NFT")⟩
          | .ok a =>
            if a ≠ stakingAddr then
              if env.approveOk id then
                if env.stakeOk id then ⟨[.approve id, .stakeWrite id], .ok ()⟩
                else ⟨[.approve id, .stakeWrite id], .error (.txReverted "Stake NFT")⟩
              else ⟨[.approve id], .error (.txReverted "Approve NFT for staking")⟩
            else
              if env.stakeOk id then ⟨[.stakeWrite id], .ok ()⟩
              else ⟨[.stakeWrite id], .error (.txReverted "Stake NFT")⟩

/-- stakeNFT (App.tsx lines 1058-1147): after the connection and non-empty
input guards it submits the approve transaction and then the stake
transaction directly; no ownership read is performed. -/
def stakeNFT (env : TxEnv) (input : Option Nat) : TxRun :=
  match input with
  | none => ⟨[], .error (.validation "Please select an NFT to stake")⟩
  | some id =>
    if env.approveOk id then
      if env.stakeOk id then ⟨[.approve id, .stakeWrite id], .ok ()⟩
      else ⟨[.approve id, .stakeWrite id], .error (.txReverted "Staking failed")⟩
    else ⟨[.approve id], .error (.txReverted "Staking failed")⟩

end App

namespace NFTStaking

/-- One day in seconds (Solidity `1 days`). -/
def oneDay : Nat := 86400

/-- StakingInfo (MonadNFT.sol lines 136-140): per-token staking record. -/
structure StakingInfo where
  owner : Nat
  stakedAt : Nat
  isStaked : Bool
deriving DecidableEq

/-- Pointwise update of a map modelled as a function. -/
def updFn {β : Type} (f : Nat → β) (k : Nat) (v : β) : Nat → β :=
  fun x => if x = k then v else f x

/-- Storage of the NFTStaking contract (MonadNFT.sol lines 123-166) together
with the NFT-contract ownership view it interacts with: `nftOwner` is
`nftContract.ownerOf`, `selfAddr` the staking contract's own address. -/
structure StakingState where
  stakedTokens : Nat → StakingInfo
  stakedByOwner : Nat → List Nat
  stakedIndex : Nat → Nat
  accumulatedRewards : Nat → Nat
  lastClaimTime : Nat → Nat
  totalStaked : Nat
  rewardRate : Nat
  minimumStakingPeriod : Nat
  contractOwner : Nat
  nftOwner : Nat → Nat
  selfAddr : Nat

/-- calculateReward (MonadNFT.sol lines 251-258): linear accrual
`stakingDuration * rewardRate / 1 days` for a staked token, 0 otherwise.
For a staked token `now` is never below `stakedAt` on chain; natural-number
subtraction is used for the duration. -/
def calculateReward (s : StakingState) (now tokenId : Nat) : Nat :=
  if (s.stakedTokens tokenId).isStaked then
    (now - (s.stakedTokens tokenId).stakedAt) * s.rewardRate / oneDay
  else 0

/-- getRewardAmount (MonadNFT.sol lines 261-272): pending rewards of every
token in the staker's list plus the accumulated rewards. -/
def getRewardAmount (s : StakingState) (now owner : Nat) : Nat :=
  s.accumulatedRewards owner + ((s.stakedByOwner owner).map (calculateReward s now)).sum

/-- getStakedTokens (MonadNFT.sol lines 275-277). -/
def getStakedTokens (s : StakingState) (owner : Nat) : List Nat :=
  s.stakedByOwner owner

/-- stake (MonadNFT.sol lines 170-192): requires the sender to own the token
on the NFT contract and the token not to be staked; records the staking info,
appends to the sender's list, updates the index map and the total, and
transfers the token to the staking contract. -/
def stake (s : StakingState) (sender now tokenId : Nat) : Except String StakingState :=
  if s.nftOwner tokenId ≠ sender then .error "Not the owner of the token"
  else if (s.stakedTokens tokenId).isStaked then .error "Token already staked"
  else
    .ok { s with
      stakedTokens := updFn s.stakedTokens tokenId ⟨sender, now, true⟩,
      stakedByOwner := updFn s.stakedByOwner sender (s.stakedByOwner sender ++ [tokenId]),
      stakedIndex := updFn s.stakedIndex tokenId (s.stakedByOwner sender).length,
      totalStaked := s.totalStaked + 1,
      nftOwner := updFn s.nftOwner tokenId s.selfAddr }

/-- unstake (MonadNFT.sol lines 195-229): requires the sender to be the
recorded staker, the token to be staked, and the minimum staking period to
have elapsed; credits the pending reward to accumulatedRewards, removes the
token from the sender's list by swapping with the last entry and popping,
clears the records, decrements the total, and transfers the token back to the
sender.  The extra error branches are where solc 0.8 checked arithmetic or an
out-of-bounds array store would revert. -/
def unstake (s : StakingState) (sender now tokenId : Nat) : Except String StakingState :=
  if (s.stakedTokens tokenId).owner ≠ sender then .error "Not the owner of the staked token"
  else if ¬ (s.stakedTokens tokenId).isStaked then .error "Token not staked"
  else if now < (s.stakedTokens tokenId).stakedAt + s.minimumStakingPeriod then
    .error "Minimum staking period not met"
  else if (s.stakedByOwner sender).length = 0 then .error "arithmetic underflow"
  else if s.stakedIndex tokenId ≠ (s.stakedByOwner sender).length - 1 ∧
      (s.stakedByOwner sender).length ≤ s.stakedIndex tokenId then
    .error "array index out of bounds"
  else if s.totalStaked = 0 then .error "arithmetic underflow"
  else
    .ok { s with
      accumulatedRewards :=
        updFn s.accumulatedRewards sender
          (s.accumulatedRewards sender + calculateReward s now tokenId),
      stakedByOwner :=
        updFn s.stakedByOwner sender
          ((if s.stakedIndex tokenId = (s.stakedByOwner sender).length - 1
            then s.stakedByOwner sender
            else (s.stakedByOwner sender).set (s.stakedIndex tokenId)
              ((s.stakedByOwner sender).getD ((s.stakedByOwner sender).length - 1) 0)).dropLast),
      stakedIndex :=
        updFn
          (if s.stakedIndex tokenId = (s.stakedByOwner sender).length - 1
            then s.stakedIndex
            else updFn s.stakedIndex
              ((s.stakedByOwner sender).getD ((s.stakedByOwner sender).length - 1) 0)
              (s.stakedIndex tokenId))
          tokenId 0,
      stakedTokens := updFn s.stakedTokens tokenId ⟨0, 0, false⟩,
      totalStaked := s.totalStaked - 1,
      nftOwner := updFn s.nftOwner tokenId sender }

/-- claimRewards (MonadNFT.sol lines 232-248): requires a positive reward
total, zeroes the accumulated rewards, records the claim time, and emits the
claimed amount (returned here alongside the new state). -/
def claimRewards (s : StakingState) (sender now : Nat) : Except String (StakingState × Nat) :=
  if getRewardAmount s now sender = 0 then .error "No rewards to claim"
  else
    .ok ({ s with
      accumulatedRewards := updFn s.accumulatedRewards sender 0,
      lastClaimTime := updFn s.lastClaimTime sender now }, getRewardAmount s now sender)

/-- setRewardRate (MonadNFT.sol lines 280-282), onlyOwner. -/
def setRewardRate (s : StakingState) (sender newRate : Nat) : Except String StakingState :=
  if sender ≠ s.contractOwner then .error "caller is not the owner"
  else .ok { s with rewardRate := newRate }

/-- setMinimumStakingPeriod (MonadNFT.sol lines 285-287), onlyOwner. -/
def setMinimumStakingPeriod (s : StakingState) (sender newPeriod : Nat) :
    Except String StakingState :=
  if sender ≠ s.contractOwner then .error "caller is not the owner"
  else .ok { s with minimumStakingPeriod := newPeriod }

/-- The externally callable state-changing operations of the staking
contract, each tagged with its caller and the block timestamp. -/
inductive Op where
| stake (sender now tokenId : Nat)
| unstake (sender now tokenId : Nat)
| claim (sender now : Nat)
| setRewardRate (sender newRate : Nat)
| setMinimumStakingPeriod (sender newPeriod : Nat)

/-- Transaction semantics of one call: a revert leaves the state unchanged. -/
def applyOp (s : StakingState) : Op → StakingState
| .stake sender now tokenId =>
  match stake s sender now tokenId with
  | .ok t => t
  | .error _ => s
| .unstake sender now tokenId =>
  match unstake s sender now tokenId with
  | .ok t => t
  | .error _ => s
| .claim sender now =>
  match claimRewards s sender now with
  | .ok (t, _) => t
  | .error _ => s
| .setRewardRate sender newRate =>
  match setRewardRate s sender newRate with
  | .ok t => t
  | .error _ => s
| .setMinimumStakingPeriod sender newPeriod =>
  match setMinimumStakingPeriod s sender newPeriod with
  | .ok t => t
  | .error _ => s

/-- Well-formedness of a staker's bookkeeping, maintained by the contract on
every reachable state: the staked-token list of the owner has no duplicates,
every listed token is recorded as staked by that owner, the index map points
each listed token at its position, and every token recorded as staked by the
owner is in the list. -/
def WF (s : StakingState) (owner : Nat) : Prop :=
  (s.stakedByOwner owner).Nodup ∧
  (∀ t ∈ s.stakedByOwner owner,
    (s.stakedTokens t).owner = owner ∧ (s.stakedTokens t).isStaked = true) ∧
  (∀ t ∈ s.stakedByOwner owner,
    s.stakedIndex t < (s.stakedByOwner owner).length ∧
      (s.stakedByOwner owner).getD (s.stakedIndex t) 0 = t) ∧
  (∀ t, (s.stakedTokens t).isStaked = true → (s.stakedTokens t).owner = owner →
    t ∈ s.stakedByOwner owner)

end NFTStaking

namespace MonadNFT

open NFTStaking (updFn)

/-- Storage of the MonadNFT contract (MonadNFT.sol lines 8-31):
`tokenOwner` is the ERC721 ownership map (`none` means the token does not
exist), `totalSupply` the ERC721Enumerable total supply. -/
structure NFTState where
  totalSupply : Nat
  maxSupply : Nat
  mintPrice : Nat
  whitelisted : Nat → Bool
  contractOwner : Nat
  tokenOwner : Nat → Option Nat

/-- ERC721 `_safeMint`: reverts when the token already exists, otherwise
records the owner and bumps the enumerable total supply. -/
def safeMint (st : NFTState) (dest tokenId : Nat) : Except String NFTState :=
  match st.tokenOwner tokenId with
  | some _ => .error "ERC721InvalidSender"
  | none =>
    .ok { st with
      tokenOwner := updFn st.tokenOwner tokenId (some dest),
      totalSupply := st.totalSupply + 1 }

/-- mint (MonadNFT.sol lines 34-42): requires supply below the maximum and
sufficient payment, then mints token `totalSupply + 1` to the sender. -/
def mint (st : NFTState) (sender value : Nat) : Except String NFTState :=
  if st.maxSupply ≤ st.totalSupply then .error "Max supply reached"
  else if value < st.mintPrice then .error "Insufficient payment"
  else safeMint st sender (st.totalSupply + 1)

/-- The loop of mintMultiple: `count` sequential `_safeMint` calls, each at
token id `totalSupply + 1`. -/
def mintLoop (st : NFTState) (sender : Nat) : Nat → Except String NFTState
| 0 => .ok st
| k + 1 =>
  match safeMint st sender (st.totalSupply + 1) with
  | .error e => .error e
  | .ok st2 => mintLoop st2 sender k

/-- mintMultiple (MonadNFT.sol lines 45-54): requires the batch to fit under
the maximum supply and sufficient payment for the whole batch. -/
def mintMultiple (st : NFTState) (sender value count : Nat) : Except String NFTState :=
  if ¬ (st.totalSupply + count ≤ st.maxSupply) then .error "Exceeds max supply"
  else if value < st.mintPrice * count then .error "Insufficient payment"
  else mintLoop st sender count

/-- whitelistMint (MonadNFT.sol lines 57-68): free mint for a whitelisted
sender while supply is below the maximum; removes the sender from the
whitelist afterwards. -/
def whitelistMint (st : NFTState) (sender : Nat) : Except String NFTState :=
  if ¬ st.whitelisted sender then .error "Not whitelisted"
  else if st.maxSupply ≤ st.totalSupply then .error "Max supply reached"
  else
    match safeMint st sender (st.totalSupply + 1) with
    | .error e => .error e
    | .ok st2 => .ok { st2 with whitelisted := updFn st2.whitelisted sender false }

/-- addToWhitelist (MonadNFT.sol lines 71-75), onlyOwner. -/
def addToWhitelist (st : NFTState) (sender : Nat) (addrs : List Nat) :
    Except String NFTState :=
  if sender ≠ st.contractOwner then .error "caller is not the owner"
  else .ok { st with whitelisted := addrs.foldl (fun w a => updFn w a true) st.whitelisted }

/-- setMintPrice (MonadNFT.sol lines 78-80), onlyOwner. -/
def setMintPrice (st : NFTState) (sender newPrice : Nat) : Except String NFTState :=
  if sender ≠ st.contractOwner then .error "caller is not the owner"
  else .ok { st with mintPrice := newPrice }

/-- setMaxSupply (MonadNFT.sol lines 83-86), onlyOwner: rejects any new
maximum below the current total supply. -/
def setMaxSupply (st : NFTState) (sender newMaxSupply : Nat) : Except String NFTState :=
  if sender ≠ st.contractOwner then .error "caller is not the owner"
  else if newMaxSupply < st.totalSupply then .error "New max supply too low"
  else .ok { st with maxSupply := newMaxSupply }

/-- The externally callable state-changing operations of the NFT contract. -/
inductive Op where
| mint (sender value : Nat)
| mintMultiple (sender value count : Nat)
| whitelistMint (sender : Nat)
| addToWhitelist (sender : Nat) (addrs : List Nat)
| setMintPrice (sender newPrice : Nat)
| setMaxSupply (sender newMaxSupply : Nat)

/-- Transaction semantics of one call: a revert leaves the state unchanged. -/
def applyOp (st : NFTState) : Op → NFTState
| .mint sender value =>
  match mint st sender value with
  | .ok t => t
  | .error _ => st
| .mintMultiple sender value count =>
  match mintMultiple st sender value count with
  | .ok t => t
  | .error _ => st
| .whitelistMint sender =>
  match whitelistMint st sender with
  | .ok t => t
  | .error _ => st
| .addToWhitelist sender addrs =>
  match addToWhitelist st sender addrs with
  | .ok t => t
  | .error _ => st
| .setMintPrice sender newPrice =>
  match setMintPrice st sender newPrice with
  | .ok t => t
  | .error _ => st
| .setMaxSupply sender newMaxSupply =>
  match setMaxSupply st sender newMaxSupply with
  | .ok t => t
  | .error _ => st

/-- Run a sequence of calls. -/
def runOps (st : NFTState) (ops : List Op) : NFTState :=
  ops.foldl applyOp st

/-- Whether an Except result is a success. -/
def exceptOk {ε α : Type} : Except ε α → Bool
| .ok _ => true
| .error _ => false

end MonadNFT

namespace App

/-- Modelled from the spec: the deployed staking contract behind the client
(whose methods `rewards`, `getTotalStakedNFTs`, `dailyRewardCap`, `stakeNFT`,
`unstakeAndRemove` the client calls) is not under src/; only the NFTStaking
contract is.  Per spec section 4.4 the client reads the accrued reward
balance, and per scenario C that balance resets to 0 on claimRewards, so the
`rewards(address)` read is mapped to the NFTStaking contract's
`accumulatedRewards` accumulator, the claim-resettable balance. -/
def rewardsRead (s : NFTStaking.StakingState) (addr : Nat) : Nat :=
  s.accumulatedRewards addr

/-- `web3.utils.fromWei(x, ether)`: base units to display units. -/
def fromWei (n : Nat) : ℚ :=
  (n : ℚ) / 10 ^ 18

/-- The earned figure set by refreshRewardData (App.tsx lines 1830-1841),
which the RewardsClaimed event handler (App.tsx lines 2362-2379) invokes to
refresh the cached RewardSnapshot. -/
def refreshEarned (s : NFTStaking.StakingState) (addr : Nat) : ℚ :=
  fromWei (rewardsRead s addr)

/-- Whether a stake flow ended in an OwnershipMismatch-class failure. -/
def TxRun.failedWithOwnershipMismatch (r : TxRun) : Bool :=
  match r.result with
  | .error e => e.isOwnershipMismatch
  | .ok _ => false

/-- A chain environment where the wallet has nothing staked: getStakedTokens
resolves to an empty list, the remaining lookups throw, and the staking
contract owns no tokens. -/
def envNoneStaked : StakeEnv :=
  ⟨.ok (.list []), .err, .err, .err, .err, .err, .ok 0,
    fun _ => .err, fun _ => .err, fun _ => .err, fun _ => .err⟩

/-- A chain environment where getStakedTokens resolves empty but the
stakedNFTs mapping would report token 5; all later lookups throw and the
staking contract owns no tokens. -/
def envSkippedMapping : StakeEnv :=
  ⟨.ok (.list []), .ok 5, .err, .err, .err, .err, .ok 0,
    fun _ => .err, fun _ => .err, fun _ => .err, fun _ => .err⟩

/-- An owned-set environment where the wallet owns exactly token 5. -/
def oenvOwnsFive : OwnedEnv :=
  ⟨.ok 1, fun i => if i = 0 then .ok 5 else .err⟩

/-- An owned-set environment where the wallet owns nothing. -/
def oenvOwnsNone : OwnedEnv :=
  ⟨.ok 0, fun _ => .err⟩

/-- A transaction environment where token 5 is owned by address 99, nothing
is approved, the approve transaction reverts (as the ERC721 contract does for
a non-owner caller) and the stake transaction would succeed. -/
def txenvNotOwner : TxEnv :=
  ⟨fun _ => .ok 99, fun _ => .ok 0, fun _ => false, fun _ => true⟩

end App

namespace NFTStaking

/-- A staking state where address 1 has staked exactly token 7 at time 0,
with reward rate 10 per day, a one-day minimum period, and the staking
contract at address 99 holding the token. -/
def sampleStaked : StakingState :=
  ⟨fun tok => if tok = 7 then ⟨1, 0, true⟩ else ⟨0, 0, false⟩,
    fun a => if a = 1 then [7] else [],
    fun _ => 0,
    fun _ => 0,
    fun _ => 0,
    1, 10, 86400, 0,
    fun tok => if tok = 7 then 99 else 0,
    99⟩

/-- The state reached from `sampleStaked` by address 1 unstaking token 7 at
time 86400 (one full day). -/
def sampleUnstaked : StakingState :=
  match unstake sampleStaked 1 86400 7 with
  | .ok t => t
  | .error _ => sampleStaked

/-- A fresh staking state with no stakes, reward rate 10 per day, every token
owned by address 1 on the NFT contract, and the staking contract at 99. -/
def sampleFresh : StakingState :=
  ⟨fun _ => ⟨0, 0, false⟩, fun _ => [], fun _ => 0, fun _ => 0, fun _ => 0,
    0, 10, 86400, 0, fun _ => 1, 99⟩

end NFTStaking

namespace MonadNFT

/-- A sample NFT contract state: 2 of 2 tokens minted, price 1, everyone
whitelisted, owner 0. -/
def sampleFull : NFTState :=
  ⟨2, 2, 1, fun _ => true, 0, fun tok => if tok = 1 ∨ tok = 2 then some 9 else none⟩

end MonadNFT

/-! ## Helper lemmas -/

namespace App

theorem getLast?_cons_of_getLast? {α : Type} (a : α) (l : List α) (x : α)
    (h : l.getLast? = some x) : (a :: l).getLast? = some x := by
  cases l with
  | nil => simp at h
  | cons b t => rw [List.getLast?_cons_cons]; exact h

/-- When every attempt in the window fails, the retry loop makes exactly one
invocation per remaining attempt, ends with the last error, and its final log
line reports the exhaustion under the supplied label. -/
theorem safeRpcGo_allFail {α : Type} (op : Nat → RpcOutcome α) (name : String)
    (jitter : Nat → ℚ) (maxAttempts : Nat) (msgs : Nat → String) :
    ∀ remaining attempt, 1 ≤ remaining →
      (∀ i, attempt ≤ i → i < attempt + remaining → op i = .fail (msgs i)) →
      (safeRpcGo op name jitter maxAttempts remaining attempt).calls = remaining ∧
      (safeRpcGo op name jitter maxAttempts remaining attempt).result =
        .fail (msgs (attempt + remaining - 1)) ∧
      (safeRpcGo op name jitter maxAttempts remaining attempt).logs.getLast? =
        some ("All " ++ toString maxAttempts ++ " attempts failed for " ++ name) := by
  intro remaining
  induction remaining with
  | zero => intro attempt h; omega
  | succ r ih =>
    intro attempt _ hfail
    have hop : op attempt = .fail (msgs attempt) := hfail attempt (Nat.le_refl _) (by omega)
    cases r with
    | zero =>
      simp [safeRpcGo, hop]
    | succ r2 =>
      obtain ⟨h1, h2, h3⟩ :=
        ih (attempt + 1) (by omega) (fun i hi1 hi2 => hfail i (by omega) (by omega))
      simp only [safeRpcGo] at h1 h2 h3
      simp only [safeRpcGo, hop]
      refine ⟨?_, ?_, ?_⟩
      · simpa using h1
      · rw [show attempt + (r2 + 1 + 1) - 1 = attempt + 1 + (r2 + 1) - 1 by omega]
        simpa using h2
      · exact getLast?_cons_of_getLast? _ _ _ h3

/-- The attempt count and the backoff delays of the retry loop depend only on
the resolve/reject pattern of the attempts, not on the error messages. -/
theorem safeRpcGo_pattern {α : Type} (o1 o2 : Nat → RpcOutcome α) (name : String)
    (jitter : Nat → ℚ) (maxAttempts : Nat)
    (hsame : ∀ i, (o1 i).isOk = (o2 i).isOk) :
    ∀ remaining attempt,
      (safeRpcGo o1 name jitter maxAttempts remaining attempt).calls =
        (safeRpcGo o2 name jitter maxAttempts remaining attempt).calls ∧
      (safeRpcGo o1 name jitter maxAttempts remaining attempt).delays =
        (safeRpcGo o2 name jitter maxAttempts remaining attempt).delays := by
  intro remaining
  induction remaining with
  | zero => intro attempt; exact ⟨rfl, rfl⟩
  | succ r ih =>
    intro attempt
    have h := hsame attempt
    cases h1 : o1 attempt with
    | ok v =>
      cases h2 : o2 attempt with
      | ok w => simp [safeRpcGo, h1, h2]
      | fail m => rw [h1, h2] at h; simp [RpcOutcome.isOk] at h
    | fail m =>
      cases h2 : o2 attempt with
      | ok w => rw [h1, h2] at h; simp [RpcOutcome.isOk] at h
      | fail m2 =>
        rcases ih (attempt + 1) with ⟨hc, hd⟩
        by_cases hr : r = 0
        · subst hr; simp [safeRpcGo, h1, h2]
        · simp only [safeRpcGo, h1, h2]
          rw [if_neg hr, if_neg hr]
          simp [hc, hd]

end App

namespace App

/-- C5: a wrapped operation that fails on every attempt is invoked exactly the
configured maximum attempt count, after which safeRpcCall re-raises the last
error, with the exhaustion reported under the supplied label in the final log
line; it never retries beyond the bound. -/
theorem safeRpcCall_exhausts_attempts {α : Type} (op : Nat → RpcOutcome α)
    (name : String) (jitter : Nat → ℚ) (maxAttempts : Nat) (msgs : Nat → String)
    (hmax : 1 ≤ maxAttempts)
    (hop : ∀ i, i < maxAttempts → op i = .fail (msgs i)) :
    (safeRpcCall op name jitter maxAttempts).calls = maxAttempts ∧
    (safeRpcCall op name jitter maxAttempts).result = .fail (msgs (maxAttempts - 1)) ∧
    (safeRpcCall op name jitter maxAttempts).logs.getLast? =
      some ("All " ++ toString maxAttempts ++ " attempts failed for " ++ name) := by
  have h := safeRpcGo_allFail op name jitter maxAttempts msgs maxAttempts 0 hmax
    (fun i _ hi => hop i (by omega))
  simpa [safeRpcCall] using h

/-- Witness for C5 at a concrete always-failing operation with 3 attempts. -/
theorem safeRpcCall_exhausts_attempts_witness :
    (safeRpcCall (fun _ => (RpcOutcome.fail "boom" : RpcOutcome Nat)) "Get rewards"
      (fun _ => 0) 3).calls = 3 ∧
    (safeRpcCall (fun _ => (RpcOutcome.fail "boom" : RpcOutcome Nat)) "Get rewards"
      (fun _ => 0) 3).result = .fail "boom" ∧
    (safeRpcCall (fun _ => (RpcOutcome.fail "boom" : RpcOutcome Nat)) "Get rewards"
      (fun _ => 0) 3).logs.getLast? =
      some ("All " ++ toString 3 ++ " attempts failed for " ++ "Get rewards") :=
  safeRpcCall_exhausts_attempts (fun _ => .fail "boom") "Get rewards" (fun _ => 0) 3
    (fun _ => "boom") (by omega) (fun i _ => rfl)

/-- C6: the retry behaviour of safeRpcCall does not branch on the rate-limit
classification of a failure: two runs whose attempts fail and succeed in the
same positions, with arbitrary (for example differently classified) error
messages, make the same number of invocations and wait the same backoff delay
before each retry. -/
theorem safeRpcCall_rate_limit_noninterference {α : Type}
    (o1 o2 : Nat → RpcOutcome α) (name : String) (jitter : Nat → ℚ) (maxAttempts : Nat)
    (hsame : ∀ i, (o1 i).isOk = (o2 i).isOk) :
    (safeRpcCall o1 name jitter maxAttempts).calls =
      (safeRpcCall o2 name jitter maxAttempts).calls ∧
    (safeRpcCall o1 name jitter maxAttempts).delays =
      (safeRpcCall o2 name jitter maxAttempts).delays :=
  safeRpcGo_pattern o1 o2 name jitter maxAttempts hsame maxAttempts 0

/-- Witness for C6: a run failing with rate-limit errors against a run failing
with a generic network error, both over 3 attempts. -/
theorem safeRpcCall_rate_limit_noninterference_witness :
    (safeRpcCall (fun _ => (RpcOutcome.fail "429 too many requests" : RpcOutcome Nat))
      "Get NFT balance" (fun _ => 7) 3).calls =
      (safeRpcCall (fun _ => (RpcOutcome.fail "connection reset" : RpcOutcome Nat))
        "Get NFT balance" (fun _ => 7) 3).calls ∧
    (safeRpcCall (fun _ => (RpcOutcome.fail "429 too many requests" : RpcOutcome Nat))
      "Get NFT balance" (fun _ => 7) 3).delays =
      (safeRpcCall (fun _ => (RpcOutcome.fail "connection reset" : RpcOutcome Nat))
        "Get NFT balance" (fun _ => 7) 3).delays :=
  safeRpcCall_rate_limit_noninterference (fun _ => .fail "429 too many requests")
    (fun _ => .fail "connection reset") "Get NFT balance" (fun _ => 7) 3 (fun _ => rfl)

end App

namespace App

theorem dedupFirst_go_nodup :
    ∀ (l acc : List Nat), acc.Nodup →
      (l.foldl (fun acc x => if x ∈ acc then acc else acc ++ [x]) acc).Nodup := by
  intro l
  induction l with
  | nil => intro acc h; exact h
  | cons a t ih =>
    intro acc h
    by_cases ha : a ∈ acc
    · simpa [ha] using ih acc h
    · have : (acc ++ [a]).Nodup := by simp [List.nodup_append, h, ha]
      simpa [ha] using ih (acc ++ [a]) this

theorem dedupFirst_nodup (l : List Nat) : (dedupFirst l).Nodup :=
  dedupFirst_go_nodup l [] List.nodup_nil

theorem dedupFirst_go_subset :
    ∀ (l acc : List Nat) (x : Nat),
      x ∈ l.foldl (fun acc x => if x ∈ acc then acc else acc ++ [x]) acc →
      x ∈ acc ∨ x ∈ l := by
  intro l
  induction l with
  | nil => intro acc x h; exact Or.inl h
  | cons a t ih =>
    intro acc x h
    by_cases ha : a ∈ acc
    · rw [List.foldl_cons, if_pos ha] at h
      rcases ih acc x h with h2 | h2
      · exact Or.inl h2
      · exact Or.inr (List.mem_cons_of_mem _ h2)
    · rw [List.foldl_cons, if_neg ha] at h
      rcases ih (acc ++ [a]) x h with h2 | h2
      · rcases List.mem_append.mp h2 with h3 | h3
        · exact Or.inl h3
        · simp at h3
          exact Or.inr (by simp [h3])
      · exact Or.inr (List.mem_cons_of_mem _ h2)

theorem dedupFirst_subset (l : List Nat) (x : Nat) (h : x ∈ dedupFirst l) : x ∈ l := by
  rcases dedupFirst_go_subset l [] x h with h2 | h2
  · simp at h2
  · exact h2

/-- A lookup method whose contract call threw yields no tokens. -/
theorem methodThrew_yield_empty (env : StakeEnv) (user : Nat) (cached : List Nat) :
    ∀ j, methodThrew env j → methodYield env user cached j = [] := by
  intro j hj
  match j with
  | 1 => simp only [methodThrew] at hj; simp [methodYield, hj]
  | 2 => simp only [methodThrew] at hj; simp [methodYield, hj]
  | 3 => simp only [methodThrew] at hj; simp [methodYield, hj]
  | 4 => simp only [methodThrew] at hj; simp [methodYield, hj]
  | 0 => exact hj.elim
  | (n + 5) => exact hj.elim

/-- Characterization of the contract-method chain: it stops at some method
`m` between 1 and 5, returns exactly that method's yield (tagging it when
non-empty), records methods 1 to `m` as consulted, and every method before
`m` threw. -/
theorem contractStep_spec (env : StakeEnv) (user : Nat) (cached : List Nat) :
    ∃ m, 1 ≤ m ∧ m ≤ 5 ∧
      contractStepIds env =
        (methodYield env user cached m,
          if methodYield env user cached m = [] then none else some m,
          List.range' 1 m) ∧
      (∀ j, 1 ≤ j → j < m → methodThrew env j) := by
  cases h1 : env.getStakedTokens with
  | ok v =>
    refine ⟨1, by omega, by omega, ?_, by omega⟩
    cases v with
    | list xs =>
      cases xs with
      | nil => simp [contractStepIds, methodYield, h1]
      | cons a t => simp [contractStepIds, methodYield, h1]
    | single n =>
      by_cases hn : n = 0
      · simp [contractStepIds, methodYield, h1, hn]
      · simp [contractStepIds, methodYield, h1, hn]
  | err =>
    cases h2 : env.stakedNFTs with
    | ok n =>
      refine ⟨2, by omega, by omega, ?_, ?_⟩
      · by_cases hn : 0 < n
        · simp [contractStepIds, methodYield, h1, h2, hn, Nat.pos_iff_ne_zero.mp hn,
            List.range']
        · simp [contractStepIds, methodYield, h1, h2, hn, List.range']
      · intro j hj1 hj2
        interval_cases j
        · simp [methodThrew, h1]
    | err =>
      cases h3 : env.getStaked with
      | ok v =>
        refine ⟨3, by omega, by omega, ?_, ?_⟩
        · cases v with
          | list xs =>
            cases xs with
            | nil => simp [contractStepIds, methodYield, h1, h2, h3, List.range']
            | cons a t => simp [contractStepIds, methodYield, h1, h2, h3, List.range']
          | single n =>
            by_cases hn : 0 < n
            · simp [contractStepIds, methodYield, h1, h2, h3, hn,
                Nat.pos_iff_ne_zero.mp hn, List.range']
            · simp [contractStepIds, methodYield, h1, h2, h3, hn, List.range']
        · intro j hj1 hj2
          interval_cases j
          · simp [methodThrew, h1]
          · simp [methodThrew, h2]
      | err =>
        cases h4 : env.stakedTokens with
        | ok v =>
          refine ⟨4, by omega, by omega, ?_, ?_⟩
          · cases v with
            | list xs =>
              cases xs with
              | nil => simp [contractStepIds, methodYield, h1, h2, h3, h4, List.range']
              | cons a t => simp [contractStepIds, methodYield, h1, h2, h3, h4, List.range']
            | single n =>
              by_cases hn : 0 < n
              · simp [contractStepIds, methodYield, h1, h2, h3, h4, hn,
                  Nat.pos_iff_ne_zero.mp hn, List.range']
              · simp [contractStepIds, methodYield, h1, h2, h3, h4, hn, List.range']
          · intro j hj1 hj2
            interval_cases j
            · simp [methodThrew, h1]
            · simp [methodThrew, h2]
            · simp [methodThrew, h3]
        | err =>
          refine ⟨5, by omega, by omega, ?_, ?_⟩
          · cases h5 : env.isStaker with
            | ok b =>
              cases b with
              | true =>
                cases h6 : env.stakerToTokenId with
                | ok n =>
                  by_cases hn : 0 < n
                  · simp [contractStepIds, methodYield, h1, h2, h3, h4, h5, h6, hn,
                      Nat.pos_iff_ne_zero.mp hn, List.range']
                  · simp [contractStepIds, methodYield, h1, h2, h3, h4, h5, h6, hn,
                      List.range']
                | err =>
                  simp [contractStepIds, methodYield, h1, h2, h3, h4, h5, h6, List.range']
              | false =>
                simp [contractStepIds, methodYield, h1, h2, h3, h4, h5, List.range']
            | err =>
              simp [contractStepIds, methodYield, h1, h2, h3, h4, h5, List.range']
          · intro j hj1 hj2
            interval_cases j
            · simp [methodThrew, h1]
            · simp [methodThrew, h2]
            · simp [methodThrew, h3]
            · simp [methodThrew, h4]

/-- Characterization of the staked-token discovery: the contract chain stops
at some method `m` at most 5; when its yield is non-empty it is the result,
otherwise the brute-force yield when non-empty, otherwise the cached set. -/
theorem loadStakedNFTs_spec (env : StakeEnv) (user : Nat) (cached : List Nat) :
    ∃ m, 1 ≤ m ∧ m ≤ 5 ∧ (∀ j, 1 ≤ j → j < m → methodThrew env j) ∧
      ((methodYield env user cached m ≠ [] ∧
          loadStakedNFTs env user cached =
            ⟨methodYield env user cached m, some m, List.range' 1 m⟩) ∨
        (methodYield env user cached m = [] ∧ methodYield env user cached 6 ≠ [] ∧
          loadStakedNFTs env user cached =
            ⟨methodYield env user cached 6, some 6, List.range' 1 m ++ [6]⟩) ∨
        (methodYield env user cached m = [] ∧ methodYield env user cached 6 = [] ∧
          loadStakedNFTs env user cached =
            ⟨cached, some 7, List.range' 1 m ++ [6, 7]⟩)) := by
  obtain ⟨m, hm1, hm5, hstep, hthrew⟩ := contractStep_spec env user cached
  refine ⟨m, hm1, hm5, hthrew, ?_⟩
  by_cases hy : methodYield env user cached m = []
  · have hy6 : methodYield env user cached 6 = bruteForceIds env user := rfl
    by_cases hb : bruteForceIds env user = []
    · refine Or.inr (Or.inr ⟨hy, by rw [hy6]; exact hb, ?_⟩)
      rw [loadStakedNFTs, hstep, hy]
      simp [hb, List.append_assoc]
    · refine Or.inr (Or.inl ⟨hy, by rw [hy6]; exact hb, ?_⟩)
      rw [loadStakedNFTs, hstep, hy]
      simp [hb, hy6, List.isEmpty_iff]
  · refine Or.inl ⟨hy, ?_⟩
    rw [loadStakedNFTs, hstep]
    simp [hy, List.isEmpty_iff]

end App

namespace App

/-- C2 counterexample: when getStakedTokens resolves to an empty list
(method 1 yields no tokens) while the stakedNFTs mapping (method 2) would
yield token 5, the engine does not consult method 2 and does not return its
non-empty yield: it jumps to the brute-force and cached fallbacks and ends
empty.  The chain as claimed - each later method consulted whenever every
earlier method yielded no tokens, stopping at the first non-empty yield -
would have returned [5] from method 2. -/
theorem fallback_chain_counterexample :
    methodYield envSkippedMapping 1 [] 1 = [] ∧
    methodYield envSkippedMapping 1 [] 2 = [5] ∧
    (loadStakedNFTs envSkippedMapping 1 []).ids = [] ∧
    (loadStakedNFTs envSkippedMapping 1 []).consulted = [1, 6, 7] ∧
    (2 ∈ (loadStakedNFTs envSkippedMapping 1 []).consulted) = False := by
  refine ⟨rfl, rfl, rfl, rfl, ?_⟩
  simp [loadStakedNFTs, contractStepIds, envSkippedMapping, bruteForceIds]

/-- C2 (amended): among the methods the engine actually consults, every
method consulted before another yielded no tokens; the first consulted method
with a non-empty yield supplies the discovery result and no later method is
consulted; and methods 2-5 are consulted only when the preceding lookup threw
(a lookup that resolves with no tokens skips the rest of the contract chain
and falls through to the brute-force step). -/
theorem fallback_chain_amended (env : StakeEnv) (user : Nat) (cached : List Nat) :
    (∀ m ∈ (loadStakedNFTs env user cached).consulted,
      ∀ j ∈ (loadStakedNFTs env user cached).consulted, j < m →
        methodYield env user cached j = []) ∧
    (∀ m ∈ (loadStakedNFTs env user cached).consulted,
      methodYield env user cached m ≠ [] →
        (loadStakedNFTs env user cached).ids = methodYield env user cached m ∧
        ∀ j ∈ (loadStakedNFTs env user cached).consulted, j ≤ m) ∧
    (∀ m ∈ (loadStakedNFTs env user cached).consulted, 2 ≤ m → m ≤ 5 →
      methodThrew env (m - 1)) := by
  obtain ⟨m, hm1, hm5, hthrew, hcase⟩ := loadStakedNFTs_spec env user cached
  have hyield : ∀ j, 1 ≤ j → j < m → methodYield env user cached j = [] :=
    fun j h1 h2 => methodThrew_yield_empty env user cached j (hthrew j h1 h2)
  rcases hcase with ⟨hne, hD⟩ | ⟨hy, hb, hD⟩ | ⟨hy, hb, hD⟩
  · rw [hD]
    simp only [List.mem_range'_1]
    refine ⟨?_, ?_, ?_⟩
    · intro k hk j hj hjk
      exact hyield j hj.1 (by omega)
    · intro k hk hkne
      have hkm : k = m := by
        rcases Nat.lt_or_ge k m with h | h
        · exact absurd (hyield k hk.1 h) hkne
        · omega
      subst hkm
      exact ⟨rfl, fun j hj => by omega⟩
    · intro k hk h2 h5
      exact hthrew (k - 1) (by omega) (by omega)
  · rw [hD]
    simp only [List.mem_append, List.mem_range'_1, List.mem_singleton]
    refine ⟨?_, ?_, ?_⟩
    · intro k hk j hj hjk
      rcases hj with hj | hj
      · rcases Nat.lt_or_ge j m with h | h
        · exact hyield j hj.1 h
        · have : j = m := by omega
          subst this; exact hy
      · subst hj
        rcases hk with hk | hk
        · omega
        · omega
    · intro k hk hkne
      have hk6 : k = 6 := by
        rcases hk with hk | hk
        · rcases Nat.lt_or_ge k m with h | h
          · exact absurd (hyield k hk.1 h) hkne
          · have : k = m := by omega
            subst this; exact absurd hy hkne
        · exact hk
      subst hk6
      refine ⟨rfl, fun j hj => ?_⟩
      rcases hj with hj | hj
      · omega
      · omega
    · intro k hk h2 h5
      rcases hk with hk | hk
      · exact hthrew (k - 1) (by omega) (by omega)
      · omega
  · rw [hD]
    simp only [List.mem_append, List.mem_range'_1, List.mem_cons,
      List.mem_singleton, List.not_mem_nil, or_false]
    refine ⟨?_, ?_, ?_⟩
    · intro k hk j hj hjk
      rcases hj with hj | hj | hj
      · rcases Nat.lt_or_ge j m with h | h
        · exact hyield j hj.1 h
        · have : j = m := by omega
          subst this; exact hy
      · subst hj; exact hb
      · subst hj
        rcases hk with hk | hk | hk
        · omega
        · omega
        · omega
    · intro k hk hkne
      have hk7 : k = 7 := by
        rcases hk with hk | hk | hk
        · rcases Nat.lt_or_ge k m with h | h
          · exact absurd (hyield k hk.1 h) hkne
          · have : k = m := by omega
            subst this; exact absurd hy hkne
        · subst hk; exact absurd hb hkne
        · exact hk
      subst hk7
      refine ⟨rfl, fun j hj => ?_⟩
      rcases hj with hj | hj | hj
      · omega
      · omega
      · omega
    · intro k hk h2 h5
      rcases hk with hk | hk | hk
      · exact hthrew (k - 1) (by omega) (by omega)
      · omega
      · omega

/-- Witness for C2 (amended): on a chain where every lookup yields nothing
and the previous StakedSet cached token 9, the consulted stale-cache method 7
supplies the result and is the last consulted method. -/
theorem fallback_chain_amended_witness :
    (loadStakedNFTs envSkippedMapping 1 [9]).ids = methodYield envSkippedMapping 1 [9] 7 ∧
    ∀ j ∈ (loadStakedNFTs envSkippedMapping 1 [9]).consulted, j ≤ 7 :=
  (fallback_chain_amended envSkippedMapping 1 [9]).2.1 7 (by decide) (by decide)

end App

namespace App

/-- C1 counterexample: the wallet owns token 5 (consistently reported by the
NFT contract), nothing is staked on chain (getStakedTokens resolves empty and
the staking contract owns no tokens), but the previous in-memory StakedSet
still caches token 5 (for example after an unstake in another session).  The
stale-cache fallback then rebuilds StakedSet = [5] while OwnedSet = [5], so
token 5 appears in both collections after the full reconciliation pass. -/
theorem reconciliation_overlap_counterexample :
    (refreshAllNFTData oenvOwnsFive envNoneStaked 1 [5]).1 = [5] ∧
    (refreshAllNFTData oenvOwnsFive envNoneStaked 1 [5]).2 = [5] ∧
    5 ∈ (refreshAllNFTData oenvOwnsFive envNoneStaked 1 [5]).1 ∧
    5 ∈ (refreshAllNFTData oenvOwnsFive envNoneStaked 1 [5]).2 := by
  refine ⟨?_, ?_, ?_, ?_⟩ <;> decide

/-- C1 (amended): after a full reconciliation pass the StakedSet never holds
a tokenId twice; the OwnedSet never holds a tokenId twice provided the
enumeration interface reports distinct tokens at distinct indices; and the
two sets are disjoint provided no tokenId produced by the staked-token
discovery (including the stale-cache fallback contents) is among the owned
tokenIds - the pass deduplicates within StakedSet but does not itself enforce
cross-set disjointness. -/
theorem reconciliation_sets_amended (oenv : OwnedEnv) (senv : StakeEnv)
    (user : Nat) (cached : List Nat) :
    (refreshAllNFTData oenv senv user cached).2.Nodup ∧
    ((∀ i j t, oenv.tokenAt i = .ok t → oenv.tokenAt j = .ok t → i = j) →
      (refreshAllNFTData oenv senv user cached).1.Nodup) ∧
    ((∀ t ∈ (loadStakedNFTs senv user cached).ids,
        t ∉ (refreshAllNFTData oenv senv user cached).1) →
      ∀ t ∈ (refreshAllNFTData oenv senv user cached).2,
        t ∉ (refreshAllNFTData oenv senv user cached).1) := by
  refine ⟨?_, ?_, ?_⟩
  · show (stakedSetIds senv user cached).Nodup
    rw [stakedSetIds]
    split
    · exact List.nodup_nil
    · exact dedupFirst_nodup _
  · intro hinj
    show (loadNFTsFromBlockchain oenv).Nodup
    rw [loadNFTsFromBlockchain]
    split
    · exact List.nodup_nil
    · split
      · exact List.nodup_nil
      · refine List.Nodup.filterMap ?_ (List.nodup_range _)
        intro i j t ht hti
        cases hi : oenv.tokenAt i with
        | err => rw [hi] at ht; simp at ht
        | ok u =>
          rw [hi] at ht
          simp only [Option.mem_def, Option.some.injEq] at ht
          cases hj : oenv.tokenAt j with
          | err => rw [hj] at hti; simp at hti
          | ok w =>
            rw [hj] at hti
            simp only [Option.mem_def, Option.some.injEq] at hti
            refine hinj i j t ?_ ?_
            · rw [hi, ht]
            · rw [hj, hti]
  · intro hdisj t ht
    have hmem : t ∈ (loadStakedNFTs senv user cached).ids := by
      have : t ∈ stakedSetIds senv user cached := ht
      rw [stakedSetIds] at this
      split at this
      · simp at this
      · exact dedupFirst_subset _ _ this
    exact hdisj t hmem

/-- Witness for C1 (amended) on a pass where the wallet owns nothing and the
stale cache holds token 9: StakedSet = [9] has no duplicates, OwnedSet is
empty and duplicate-free, and the sets are disjoint. -/
theorem reconciliation_sets_amended_witness :
    (refreshAllNFTData oenvOwnsNone envSkippedMapping 1 [9]).2.Nodup ∧
    (refreshAllNFTData oenvOwnsNone envSkippedMapping 1 [9]).1.Nodup ∧
    ∀ t ∈ (refreshAllNFTData oenvOwnsNone envSkippedMapping 1 [9]).2,
      t ∉ (refreshAllNFTData oenvOwnsNone envSkippedMapping 1 [9]).1 := by
  obtain ⟨h1, h2, h3⟩ := reconciliation_sets_amended oenvOwnsNone envSkippedMapping 1 [9]
  have hinj : ∀ i j t, oenvOwnsNone.tokenAt i = .ok t → oenvOwnsNone.tokenAt j = .ok t →
      i = j := by
    intro i j t hi _
    exact absurd hi (by simp [oenvOwnsNone])
  have hdisj : ∀ t ∈ (loadStakedNFTs envSkippedMapping 1 [9]).ids,
      t ∉ (refreshAllNFTData oenvOwnsNone envSkippedMapping 1 [9]).1 := by
    intro t _
    show t ∉ ([] : List Nat)
    simp
  exact ⟨h1, h2 hinj, h3 hdisj⟩

/-- C3 counterexample: the staking contract reports getTotalStakedNFTs() = 0
and every lookup yields no tokens, yet the full reconciliation pass of
loadAccurateNFTData ends with StakedSet = [5], because the stale-cache
fallback replays the previous in-memory StakedSet instead of accepting the
empty result. -/
theorem staked_zero_counterexample :
    loadAccurateNFTData (.ok 0) oenvOwnsFive envNoneStaked 1 [5] =
      some (0, [5], [5]) ∧ ([5] : List Nat) ≠ [] := by
  refine ⟨?_, by decide⟩
  decide

/-- C3 (amended): on a pass where the staking contract reports zero staked
tokens and, accordingly, every contract lookup (methods 1-6) yields no
tokens, the resulting StakedSet equals the deduplicated previous in-memory
StakedSet; it is empty exactly when the previous StakedSet cache was already
empty. -/
theorem staked_zero_amended (tsRead : CallResult Nat) (oenv : OwnedEnv)
    (senv : StakeEnv) (user : Nat) (cached : List Nat)
    (totalValue : Nat) (owned staked : List Nat)
    (hrun : loadAccurateNFTData tsRead oenv senv user cached =
      some (totalValue, owned, staked))
    (_htotal : totalValue = 0)
    (hempty : ∀ m, 1 ≤ m → m ≤ 6 → methodYield senv user cached m = []) :
    staked = dedupFirst cached ∧ (cached = [] → staked = []) := by
  have hstaked : staked = stakedSetIds senv user cached := by
    cases ht : tsRead with
    | err =>
      rw [ht] at hrun
      simp [loadAccurateNFTData] at hrun
    | ok tv =>
      rw [ht] at hrun
      simp only [loadAccurateNFTData, Option.some.injEq, Prod.mk.injEq] at hrun
      exact hrun.2.2.symm
  obtain ⟨m, hm1, hm5, _, hcase⟩ := loadStakedNFTs_spec senv user cached
  have hym : methodYield senv user cached m = [] := hempty m hm1 (by omega)
  have hy6 : methodYield senv user cached 6 = [] := hempty 6 (by omega) (by omega)
  rcases hcase with ⟨hne, _⟩ | ⟨_, hne, _⟩ | ⟨_, _, hD⟩
  · exact absurd hym hne
  · exact absurd hy6 hne
  · rw [hstaked, stakedSetIds, hD]
    cases hc : cached with
    | nil => exact ⟨rfl, fun _ => rfl⟩
    | cons a t =>
      refine ⟨?_, fun h => by simp at h⟩
      simp [List.isEmpty_iff]

end App

namespace App

/-- Witness for C3 (amended): with every lookup yielding nothing and token 5
cached, the pass returns the deduplicated cache. -/
theorem staked_zero_amended_witness :
    ([5] : List Nat) = dedupFirst [5] ∧ (([5] : List Nat) = [] → ([5] : List Nat) = []) :=
  staked_zero_amended (.ok 0) oenvOwnsFive envNoneStaked 1 [5] 0 [5] [5] (by decide) rfl
    (by intro m h1 h6; interval_cases m <;> rfl)

/-- C4 counterexample: token 5 is owned by address 99, not by the caller, and
the card stake flow (stakeNFT) is started on it.  The flow performs no
client-side ownership check: it submits the approve write, which the chain
rejects, and the operation fails with a transaction-revert error rather than
an OwnershipMismatch-class error - a write call was attempted before any
ownership verdict. -/
theorem stake_ownership_counterexample :
    txenvNotOwner.ownerOf 5 = .ok 99 ∧
    (stakeNFT txenvNotOwner (some 5)).writes = [.approve 5] ∧
    (stakeNFT txenvNotOwner (some 5)).result = .error (.txReverted "Staking failed") ∧
    (stakeNFT txenvNotOwner (some 5)).failedWithOwnershipMismatch = false :=
  ⟨rfl, rfl, rfl, rfl⟩

/-- C4 (amended): when the caller does not own the token, the quick-stake
flow fails with an OwnershipMismatch-class error before attempting any write,
while the card stake flow submits the NFT-contract approval write with no
client-side ownership check and fails with the approval's chain error; in
both flows, no write to the staking contract is ever attempted (the approval
reverts first). -/
theorem stake_ownership_amended (env : TxEnv) (user stakingAddr id o : Nat)
    (hown : env.ownerOf id = .ok o) (hne : o ≠ user)
    (happrove : env.approveOk id = false) :
    ((quickStakeNFT env user stakingAddr (some (id : Int))).writes = [] ∧
      (quickStakeNFT env user stakingAddr (some (id : Int))).result =
        .error (.ownershipMismatch "You do not own this NFT")) ∧
    ((stakeNFT env (some id)).writes = [.approve id] ∧
      (∀ w ∈ (stakeNFT env (some id)).writes, w.toStakingContract = false) ∧
      (stakeNFT env (some id)).result = .error (.txReverted "Staking failed")) := by
  have hnonneg : ¬ ((id : Int) < 0) := by omega
  have htoNat : (id : Int).toNat = id := rfl
  refine ⟨⟨?_, ?_⟩, ?_, ?_, ?_⟩
  · simp [quickStakeNFT, hnonneg, htoNat, hown, hne]
  · simp [quickStakeNFT, hnonneg, htoNat, hown, hne]
  · simp [stakeNFT, happrove]
  · simp [stakeNFT, happrove, WriteCall.toStakingContract]
  · simp [stakeNFT, happrove]

/-- Witness for C4 (amended) at the concrete environment where token 5
belongs to address 99 and the caller is address 1. -/
theorem stake_ownership_amended_witness :
    ((quickStakeNFT txenvNotOwner 1 7 (some ((5 : Nat) : Int))).writes = [] ∧
      (quickStakeNFT txenvNotOwner 1 7 (some ((5 : Nat) : Int))).result =
        .error (.ownershipMismatch "You do not own this NFT")) ∧
    ((stakeNFT txenvNotOwner (some 5)).writes = [.approve 5] ∧
      (∀ w ∈ (stakeNFT txenvNotOwner (some 5)).writes, w.toStakingContract = false) ∧
      (stakeNFT txenvNotOwner (some 5)).result = .error (.txReverted "Staking failed")) :=
  stake_ownership_amended txenvNotOwner 1 7 5 99 rfl (by omega) rfl

end App

namespace NFTStaking

theorem updFn_same {β : Type} (f : Nat → β) (k : Nat) (v : β) : updFn f k v k = v := by
  simp [updFn]

theorem updFn_ne {β : Type} (f : Nat → β) (k x : Nat) (v : β) (h : x ≠ k) :
    updFn f k v x = f x := by
  simp [updFn, h]

/-- Facts extracted from a successful stake call. -/
theorem stake_ok_spec {s : StakingState} {sender now tokenId : Nat} {s2 : StakingState}
    (h : stake s sender now tokenId = .ok s2) :
    s.nftOwner tokenId = sender ∧
    (s.stakedTokens tokenId).isStaked = false ∧
    s2 = { s with
      stakedTokens := updFn s.stakedTokens tokenId ⟨sender, now, true⟩,
      stakedByOwner := updFn s.stakedByOwner sender (s.stakedByOwner sender ++ [tokenId]),
      stakedIndex := updFn s.stakedIndex tokenId (s.stakedByOwner sender).length,
      totalStaked := s.totalStaked + 1,
      nftOwner := updFn s.nftOwner tokenId s.selfAddr } := by
  rw [stake] at h
  by_cases h1 : s.nftOwner tokenId ≠ sender
  · rw [if_pos h1] at h; simp at h
  · rw [if_neg h1] at h
    by_cases h2 : (s.stakedTokens tokenId).isStaked
    · rw [if_pos h2] at h; simp at h
    · rw [if_neg h2] at h
      simp only [Except.ok.injEq] at h
      exact ⟨not_not.mp h1, by simpa using h2, h.symm⟩

/-- Facts extracted from a successful unstake call. -/
theorem unstake_ok_spec {s : StakingState} {sender now tokenId : Nat} {s2 : StakingState}
    (h : unstake s sender now tokenId = .ok s2) :
    (s.stakedTokens tokenId).owner = sender ∧
    (s.stakedTokens tokenId).isStaked = true ∧
    (s.stakedTokens tokenId).stakedAt + s.minimumStakingPeriod ≤ now ∧
    (s.stakedByOwner sender).length ≠ 0 ∧
    ¬ (s.stakedIndex tokenId ≠ (s.stakedByOwner sender).length - 1 ∧
        (s.stakedByOwner sender).length ≤ s.stakedIndex tokenId) ∧
    s2 = { s with
      accumulatedRewards :=
        updFn s.accumulatedRewards sender
          (s.accumulatedRewards sender + calculateReward s now tokenId),
      stakedByOwner :=
        updFn s.stakedByOwner sender
          ((if s.stakedIndex tokenId = (s.stakedByOwner sender).length - 1
            then s.stakedByOwner sender
            else (s.stakedByOwner sender).set (s.stakedIndex tokenId)
              ((s.stakedByOwner sender).getD ((s.stakedByOwner sender).length - 1) 0)).dropLast),
      stakedIndex :=
        updFn
          (if s.stakedIndex tokenId = (s.stakedByOwner sender).length - 1
            then s.stakedIndex
            else updFn s.stakedIndex
              ((s.stakedByOwner sender).getD ((s.stakedByOwner sender).length - 1) 0)
              (s.stakedIndex tokenId))
          tokenId 0,
      stakedTokens := updFn s.stakedTokens tokenId ⟨0, 0, false⟩,
      totalStaked := s.totalStaked - 1,
      nftOwner := updFn s.nftOwner tokenId sender } := by
  rw [unstake] at h
  by_cases h1 : (s.stakedTokens tokenId).owner ≠ sender
  · rw [if_pos h1] at h; simp at h
  · rw [if_neg h1] at h
    by_cases h2 : ¬ (s.stakedTokens tokenId).isStaked
    · rw [if_pos h2] at h; simp at h
    · rw [if_neg h2] at h
      by_cases h3 : now < (s.stakedTokens tokenId).stakedAt + s.minimumStakingPeriod
      · rw [if_pos h3] at h; simp at h
      · rw [if_neg h3] at h
        by_cases h4 : (s.stakedByOwner sender).length = 0
        · rw [if_pos h4] at h; simp at h
        · rw [if_neg h4] at h
          by_cases h5 : s.stakedIndex tokenId ≠ (s.stakedByOwner sender).length - 1 ∧
              (s.stakedByOwner sender).length ≤ s.stakedIndex tokenId
          · rw [if_pos h5] at h; simp at h
          · rw [if_neg h5] at h
            by_cases h6 : s.totalStaked = 0
            · rw [if_pos h6] at h; simp at h
            · rw [if_neg h6] at h
              simp only [Except.ok.injEq] at h
              refine ⟨not_not.mp h1, ?_, by omega, h4, h5, h.symm⟩
              have := not_not.mp h2
              simpa using this

/-- Facts extracted from a successful claimRewards call. -/
theorem claimRewards_ok_spec {s : StakingState} {sender now : Nat}
    {s2 : StakingState} {amount : Nat}
    (h : claimRewards s sender now = .ok (s2, amount)) :
    getRewardAmount s now sender ≠ 0 ∧
    amount = getRewardAmount s now sender ∧
    s2 = { s with
      accumulatedRewards := updFn s.accumulatedRewards sender 0,
      lastClaimTime := updFn s.lastClaimTime sender now } := by
  rw [claimRewards] at h
  by_cases h1 : getRewardAmount s now sender = 0
  · rw [if_pos h1] at h; simp at h
  · rw [if_neg h1] at h
    simp only [Except.ok.injEq, Prod.mk.injEq] at h
    exact ⟨h1, h.2.symm, h.1.symm⟩

end NFTStaking

namespace NFTStaking

/-- C8: a staked token leaves the staking contract only through a successful
unstake by its original staker after the minimum staking period: a successful
unstake transfers the token back to the recorded staker and implies the
period elapsed; an unstake by any other address, or before the period has
elapsed, reverts and leaves the contract state unchanged; and under every
contract operation, a staked token held by the contract stays with the
contract unless that operation is exactly such an unstake. -/
theorem staked_token_exit_policy :
    (∀ s sender now tokenId s2, unstake s sender now tokenId = .ok s2 →
      sender = (s.stakedTokens tokenId).owner ∧
      (s.stakedTokens tokenId).stakedAt + s.minimumStakingPeriod ≤ now ∧
      s2.nftOwner tokenId = (s.stakedTokens tokenId).owner) ∧
    (∀ s sender now tokenId, sender ≠ (s.stakedTokens tokenId).owner →
      applyOp s (.unstake sender now tokenId) = s) ∧
    (∀ s sender now tokenId, now < (s.stakedTokens tokenId).stakedAt + s.minimumStakingPeriod →
      applyOp s (.unstake sender now tokenId) = s) ∧
    (∀ s op t, (s.stakedTokens t).isStaked = true → s.nftOwner t = s.selfAddr →
      (applyOp s op).nftOwner t ≠ s.selfAddr →
      ∃ sender now, op = Op.unstake sender now t ∧
        sender = (s.stakedTokens t).owner ∧
        (s.stakedTokens t).stakedAt + s.minimumStakingPeriod ≤ now ∧
        (applyOp s op).nftOwner t = (s.stakedTokens t).owner) := by
  refine ⟨?_, ?_, ?_, ?_⟩
  · intro s sender now tokenId s2 h
    obtain ⟨hown, _, hper, _, _, hs2⟩ := unstake_ok_spec h
    subst hs2
    exact ⟨hown.symm, hper, by simp [updFn_same, hown]⟩
  · intro s sender now tokenId hne
    rw [applyOp]
    rw [unstake, if_pos (fun heq => hne heq.symm)]
  · intro s sender now tokenId hlt
    rw [applyOp]
    cases h : unstake s sender now tokenId with
    | error e => rfl
    | ok s2 =>
      obtain ⟨_, _, hper, _⟩ := unstake_ok_spec h
      omega
  · intro s op t hstaked howned hmoved
    cases op with
    | stake sender now tokenId =>
      rw [applyOp] at hmoved ⊢
      cases h : stake s sender now tokenId with
      | error e => rw [h] at hmoved; exact absurd howned hmoved
      | ok s2 =>
        obtain ⟨_, hns, hs2⟩ := stake_ok_spec h
        rw [h] at hmoved
        subst hs2
        by_cases ht : tokenId = t
        · subst ht; rw [hstaked] at hns; exact absurd hns (by simp)
        · have ht2 : ¬ t = tokenId := fun hh => ht hh.symm
          simp only [updFn, ht2, if_false] at hmoved
          exact absurd howned hmoved
    | unstake sender now tokenId =>
      rw [applyOp] at hmoved ⊢
      cases h : unstake s sender now tokenId with
      | error e => rw [h] at hmoved; exact absurd howned hmoved
      | ok s2 =>
        obtain ⟨hown, _, hper, _, _, hs2⟩ := unstake_ok_spec h
        rw [h] at hmoved
        subst hs2
        by_cases ht : tokenId = t
        · subst ht
          exact ⟨sender, now, rfl, hown.symm, hper, by simp [updFn_same, hown]⟩
        · have ht2 : ¬ t = tokenId := fun hh => ht hh.symm
          simp only [updFn, ht2, if_false] at hmoved
          exact absurd howned hmoved
    | claim sender now =>
      rw [applyOp] at hmoved
      cases h : claimRewards s sender now with
      | error e => rw [h] at hmoved; exact absurd howned hmoved
      | ok p =>
        obtain ⟨s2, amt⟩ := p
        obtain ⟨_, _, hs2⟩ := claimRewards_ok_spec h
        rw [h] at hmoved
        subst hs2
        exact absurd howned hmoved
    | setRewardRate sender newRate =>
      rw [applyOp] at hmoved
      rw [setRewardRate] at hmoved
      by_cases hsender : sender ≠ s.contractOwner
      · rw [if_pos hsender] at hmoved; exact absurd howned hmoved
      · rw [if_neg hsender] at hmoved; exact absurd howned hmoved
    | setMinimumStakingPeriod sender newPeriod =>
      rw [applyOp] at hmoved
      rw [setMinimumStakingPeriod] at hmoved
      by_cases hsender : sender ≠ s.contractOwner
      · rw [if_pos hsender] at hmoved; exact absurd howned hmoved
      · rw [if_neg hsender] at hmoved; exact absurd howned hmoved

/-- Witness for C8 at the concrete state with token 7 staked by address 1:
a successful unstake returns the token to address 1 after one day, while an
unstake by address 2, or at time 0 (before the period), leaves the state
unchanged. -/
theorem staked_token_exit_policy_witness :
    (1 = (sampleStaked.stakedTokens 7).owner ∧
      (sampleStaked.stakedTokens 7).stakedAt + sampleStaked.minimumStakingPeriod ≤ 86400 ∧
      sampleUnstaked.nftOwner 7 = (sampleStaked.stakedTokens 7).owner) ∧
    applyOp sampleStaked (.unstake 2 86400 7) = sampleStaked ∧
    applyOp sampleStaked (.unstake 1 0 7) = sampleStaked := by
  obtain ⟨h1, h2, h3, _⟩ := staked_token_exit_policy
  refine ⟨h1 sampleStaked 1 86400 7 sampleUnstaked rfl, ?_, ?_⟩
  · exact h2 sampleStaked 2 86400 7 (by decide)
  · exact h3 sampleStaked 1 0 7 (by decide)

end NFTStaking

namespace NFTStaking

/-- C7: with reward rate R per day, a token staked for exactly 2 days with no
prior claim accrues exactly 2 * R (exact natural-number arithmetic on
duration * rate / one day); claimRewards then succeeds, pays out 2 * R, and
resets the accumulated reward balance to 0, so the client's rewards-claimed
handler, refreshing the cached RewardSnapshot from the accrued-balance read,
shows earned = 0. -/
theorem reward_two_day_claim_flow (s : StakingState) (user token t : Nat)
    (hrate : 0 < s.rewardRate)
    (hown : s.nftOwner token = user)
    (hns : (s.stakedTokens token).isStaked = false)
    (hlist : s.stakedByOwner user = [])
    (hacc : s.accumulatedRewards user = 0) :
    ∃ s1, stake s user t token = .ok s1 ∧
      calculateReward s1 (t + 2 * oneDay) token = 2 * s.rewardRate ∧
      ∃ s2, claimRewards s1 user (t + 2 * oneDay) = .ok (s2, 2 * s.rewardRate) ∧
        s2.accumulatedRewards user = 0 ∧
        App.refreshEarned s2 user = 0 := by
  set s1 : StakingState := { s with
      stakedTokens := updFn s.stakedTokens token ⟨user, t, true⟩,
      stakedByOwner := updFn s.stakedByOwner user (s.stakedByOwner user ++ [token]),
      stakedIndex := updFn s.stakedIndex token (s.stakedByOwner user).length,
      totalStaked := s.totalStaked + 1,
      nftOwner := updFn s.nftOwner token s.selfAddr } with hs1
  have hstake : stake s user t token = .ok s1 := by
    rw [stake, if_neg (by rw [hown]; exact fun h => h rfl), if_neg (by rw [hns]; simp)]
  have hst : s1.stakedTokens token = ⟨user, t, true⟩ := by
    rw [hs1]; simp [updFn_same]
  have hrr : s1.rewardRate = s.rewardRate := by rw [hs1]
  have hlist1 : s1.stakedByOwner user = [token] := by
    rw [hs1]; simp [updFn_same, hlist]
  have hacc1 : s1.accumulatedRewards user = 0 := by rw [hs1]; exact hacc
  have hcalc : calculateReward s1 (t + 2 * oneDay) token = 2 * s.rewardRate := by
    rw [calculateReward, hst, hrr]
    show (if true = true then (t + 2 * oneDay - t) * s.rewardRate / oneDay else 0) =
      2 * s.rewardRate
    rw [if_pos rfl, show t + 2 * oneDay - t = 2 * oneDay from by omega,
      Nat.mul_comm 2 oneDay, Nat.mul_assoc,
      Nat.mul_div_cancel_left _ (by decide : 0 < oneDay)]
  have hamount : getRewardAmount s1 (t + 2 * oneDay) user = 2 * s.rewardRate := by
    rw [getRewardAmount, hlist1, hacc1]
    simp [hcalc]
  refine ⟨s1, hstake, hcalc, ?_⟩
  have hclaim : claimRewards s1 user (t + 2 * oneDay) = .ok ({ s1 with
      accumulatedRewards := updFn s1.accumulatedRewards user 0,
      lastClaimTime := updFn s1.lastClaimTime user (t + 2 * oneDay) },
      2 * s.rewardRate) := by
    rw [claimRewards, if_neg (by rw [hamount]; omega), hamount]
  refine ⟨_, hclaim, ?_, ?_⟩
  · simp [updFn_same]
  · rw [App.refreshEarned, App.rewardsRead]
    simp [updFn_same, App.fromWei]

/-- Witness for C7: from a fresh state with rate 10 per day, address 1 stakes
token 7 at time 0, accrues exactly 20 over two days, claims 20, and the
refreshed earned figure is 0. -/
theorem reward_two_day_claim_flow_witness :
    ∃ s1, stake sampleFresh 1 0 7 = .ok s1 ∧
      calculateReward s1 (0 + 2 * oneDay) 7 = 2 * sampleFresh.rewardRate ∧
      ∃ s2, claimRewards s1 1 (0 + 2 * oneDay) = .ok (s2, 2 * sampleFresh.rewardRate) ∧
        s2.accumulatedRewards 1 = 0 ∧
        App.refreshEarned s2 1 = 0 :=
  reward_two_day_claim_flow sampleFresh 1 7 0 (by decide) rfl rfl rfl rfl

end NFTStaking

namespace MonadNFT

theorem safeMint_ok_spec {st : NFTState} {dest tokenId : Nat} {st2 : NFTState}
    (h : safeMint st dest tokenId = .ok st2) :
    st2.totalSupply = st.totalSupply + 1 ∧ st2.maxSupply = st.maxSupply := by
  rw [safeMint] at h
  cases ho : st.tokenOwner tokenId with
  | some w => rw [ho] at h; simp at h
  | none =>
    rw [ho] at h
    simp only [Except.ok.injEq] at h
    rw [← h]
    exact ⟨rfl, rfl⟩

theorem mint_ok_spec {st : NFTState} {sender value : Nat} {st2 : NFTState}
    (h : mint st sender value = .ok st2) :
    st.totalSupply < st.maxSupply ∧
    st2.totalSupply = st.totalSupply + 1 ∧ st2.maxSupply = st.maxSupply := by
  rw [mint] at h
  by_cases h1 : st.maxSupply ≤ st.totalSupply
  · rw [if_pos h1] at h; simp at h
  · rw [if_neg h1] at h
    by_cases h2 : value < st.mintPrice
    · rw [if_pos h2] at h; simp at h
    · rw [if_neg h2] at h
      exact ⟨by omega, safeMint_ok_spec h⟩

theorem mintLoop_ok_spec {sender : Nat} :
    ∀ (count : Nat) (st st2 : NFTState), mintLoop st sender count = .ok st2 →
      st2.totalSupply = st.totalSupply + count ∧ st2.maxSupply = st.maxSupply := by
  intro count
  induction count with
  | zero =>
    intro st st2 h
    rw [mintLoop] at h
    simp only [Except.ok.injEq] at h
    rw [← h]
    exact ⟨rfl, rfl⟩
  | succ k ih =>
    intro st st2 h
    rw [mintLoop] at h
    cases hm : safeMint st sender (st.totalSupply + 1) with
    | error e => rw [hm] at h; simp at h
    | ok stm =>
      rw [hm] at h
      obtain ⟨ht, hx⟩ := safeMint_ok_spec hm
      obtain ⟨ht2, hx2⟩ := ih stm st2 h
      constructor
      · rw [ht2, ht]; omega
      · rw [hx2, hx]

theorem mintMultiple_ok_spec {st : NFTState} {sender value count : Nat} {st2 : NFTState}
    (h : mintMultiple st sender value count = .ok st2) :
    st.totalSupply + count ≤ st.maxSupply ∧
    st2.totalSupply = st.totalSupply + count ∧ st2.maxSupply = st.maxSupply := by
  rw [mintMultiple] at h
  by_cases h1 : ¬ (st.totalSupply + count ≤ st.maxSupply)
  · rw [if_pos h1] at h; simp at h
  · rw [if_neg h1] at h
    by_cases h2 : value < st.mintPrice * count
    · rw [if_pos h2] at h; simp at h
    · rw [if_neg h2] at h
      exact ⟨by omega, mintLoop_ok_spec count st st2 h⟩

theorem whitelistMint_ok_spec {st : NFTState} {sender : Nat} {st2 : NFTState}
    (h : whitelistMint st sender = .ok st2) :
    st.totalSupply < st.maxSupply ∧
    st2.totalSupply = st.totalSupply + 1 ∧ st2.maxSupply = st.maxSupply := by
  rw [whitelistMint] at h
  by_cases h1 : ¬ st.whitelisted sender
  · rw [if_pos h1] at h; simp at h
  · rw [if_neg h1] at h
    by_cases h2 : st.maxSupply ≤ st.totalSupply
    · rw [if_pos h2] at h; simp at h
    · rw [if_neg h2] at h
      cases hm : safeMint st sender (st.totalSupply + 1) with
      | error e => rw [hm] at h; simp at h
      | ok stm =>
        rw [hm] at h
        simp only [Except.ok.injEq] at h
        obtain ⟨ht, hx⟩ := safeMint_ok_spec hm
        rw [← h]
        exact ⟨by omega, ht, hx⟩

theorem setMaxSupply_ok_spec {st : NFTState} {sender newMaxSupply : Nat} {st2 : NFTState}
    (h : setMaxSupply st sender newMaxSupply = .ok st2) :
    st.totalSupply ≤ newMaxSupply ∧
    st2.totalSupply = st.totalSupply ∧ st2.maxSupply = newMaxSupply := by
  rw [setMaxSupply] at h
  by_cases h1 : sender ≠ st.contractOwner
  · rw [if_pos h1] at h; simp at h
  · rw [if_neg h1] at h
    by_cases h2 : newMaxSupply < st.totalSupply
    · rw [if_pos h2] at h; simp at h
    · rw [if_neg h2] at h
      simp only [Except.ok.injEq] at h
      rw [← h]
      exact ⟨by omega, rfl, rfl⟩

/-- Every single contract call preserves totalSupply less than or equal to
maxSupply. -/
theorem applyOp_preserves_supply (st : NFTState) (op : Op)
    (hinv : st.totalSupply ≤ st.maxSupply) :
    (applyOp st op).totalSupply ≤ (applyOp st op).maxSupply := by
  cases op with
  | mint sender value =>
    rw [applyOp]
    cases h : mint st sender value with
    | error e => exact hinv
    | ok st2 =>
      obtain ⟨hlt, ht, hx⟩ := mint_ok_spec h
      show st2.totalSupply ≤ st2.maxSupply
      omega
  | mintMultiple sender value count =>
    rw [applyOp]
    cases h : mintMultiple st sender value count with
    | error e => exact hinv
    | ok st2 =>
      obtain ⟨hle, ht, hx⟩ := mintMultiple_ok_spec h
      show st2.totalSupply ≤ st2.maxSupply
      omega
  | whitelistMint sender =>
    rw [applyOp]
    cases h : whitelistMint st sender with
    | error e => exact hinv
    | ok st2 =>
      obtain ⟨hlt, ht, hx⟩ := whitelistMint_ok_spec h
      show st2.totalSupply ≤ st2.maxSupply
      omega
  | addToWhitelist sender addrs =>
    rw [applyOp]
    cases h : addToWhitelist st sender addrs with
    | error e => exact hinv
    | ok st2 =>
      rw [addToWhitelist] at h
      by_cases h1 : sender ≠ st.contractOwner
      · rw [if_pos h1] at h; simp at h
      · rw [if_neg h1] at h
        simp only [Except.ok.injEq] at h
        show st2.totalSupply ≤ st2.maxSupply
        rw [← h]
        exact hinv
  | setMintPrice sender newPrice =>
    rw [applyOp]
    cases h : setMintPrice st sender newPrice with
    | error e => exact hinv
    | ok st2 =>
      rw [setMintPrice] at h
      by_cases h1 : sender ≠ st.contractOwner
      · rw [if_pos h1] at h; simp at h
      · rw [if_neg h1] at h
        simp only [Except.ok.injEq] at h
        show st2.totalSupply ≤ st2.maxSupply
        rw [← h]
        exact hinv
  | setMaxSupply sender newMaxSupply =>
    rw [applyOp]
    cases h : setMaxSupply st sender newMaxSupply with
    | error e => exact hinv
    | ok st2 =>
      obtain ⟨hle, ht, hx⟩ := setMaxSupply_ok_spec h
      show st2.totalSupply ≤ st2.maxSupply
      omega

end MonadNFT

namespace MonadNFT

/-- C10: the MonadNFT contract preserves totalSupply less than or equal to
maxSupply under every sequence of calls; mint and whitelistMint revert when
the supply has reached the maximum, mintMultiple reverts when the requested
batch would push the supply past the maximum, and setMaxSupply rejects any
new maximum below the current supply. -/
theorem supply_invariant :
    (∀ st ops, st.totalSupply ≤ st.maxSupply →
      (runOps st ops).totalSupply ≤ (runOps st ops).maxSupply) ∧
    (∀ st sender value, st.maxSupply ≤ st.totalSupply →
      exceptOk (mint st sender value) = false) ∧
    (∀ st sender, st.maxSupply ≤ st.totalSupply →
      exceptOk (whitelistMint st sender) = false) ∧
    (∀ st sender value count, st.maxSupply < st.totalSupply + count →
      exceptOk (mintMultiple st sender value count) = false) ∧
    (∀ st sender newMaxSupply, newMaxSupply < st.totalSupply →
      exceptOk (setMaxSupply st sender newMaxSupply) = false) := by
  refine ⟨?_, ?_, ?_, ?_, ?_⟩
  · intro st ops
    induction ops generalizing st with
    | nil => intro h; exact h
    | cons op rest ih =>
      intro h
      rw [runOps, List.foldl_cons]
      exact ih (applyOp st op) (applyOp_preserves_supply st op h)
  · intro st sender value h
    rw [mint, if_pos h]
    rfl
  · intro st sender h
    rw [whitelistMint]
    by_cases h1 : ¬ st.whitelisted sender
    · rw [if_pos h1]; rfl
    · rw [if_neg h1, if_pos h]; rfl
  · intro st sender value count h
    rw [mintMultiple, if_pos (by omega)]
    rfl
  · intro st sender newMaxSupply h
    rw [setMaxSupply]
    by_cases h1 : sender ≠ st.contractOwner
    · rw [if_pos h1]; rfl
    · rw [if_neg h1, if_pos h]; rfl

/-- Witness for C10 at a full collection (2 of 2 minted): a mint-heavy call
sequence keeps the invariant, and each overflowing call reverts. -/
theorem supply_invariant_witness :
    ((runOps sampleFull [Op.mint 3 5, Op.mintMultiple 3 5 4,
        Op.setMaxSupply 0 5, Op.mint 3 5]).totalSupply ≤
      (runOps sampleFull [Op.mint 3 5, Op.mintMultiple 3 5 4,
        Op.setMaxSupply 0 5, Op.mint 3 5]).maxSupply) ∧
    exceptOk (mint sampleFull 3 5) = false ∧
    exceptOk (whitelistMint sampleFull 3) = false ∧
    exceptOk (mintMultiple sampleFull 3 5 1) = false ∧
    exceptOk (setMaxSupply sampleFull 0 1) = false := by
  obtain ⟨h1, h2, h3, h4, h5⟩ := supply_invariant
  exact ⟨h1 sampleFull _ (by decide), h2 sampleFull 3 5 (by decide),
    h3 sampleFull 3 (by decide), h4 sampleFull 3 5 1 (by decide),
    h5 sampleFull 0 1 (by decide)⟩

end MonadNFT

namespace NFTStaking

theorem getD_at_append (u v : List Nat) (x : Nat) :
    (u ++ x :: v).getD u.length 0 = x := by
  induction u with
  | nil => rfl
  | cons a t ih => simpa using ih

theorem set_at_append (u v : List Nat) (x b : Nat) :
    (u ++ x :: v).set u.length b = u ++ b :: v := by
  induction u with
  | nil => rfl
  | cons a t ih => simp [ih]

theorem exists_decomp (l : List Nat) : ∀ (i : Nat), i < l.length →
    ∃ u v, l = u ++ l.getD i 0 :: v ∧ u.length = i := by
  induction l with
  | nil => intro i h; simp at h
  | cons a t ih =>
    intro i h
    cases i with
    | zero => exact ⟨[], t, rfl, rfl⟩
    | succ j =>
      obtain ⟨u, v, hdec, hlen⟩ := ih j (by simpa using h)
      refine ⟨a :: u, v, ?_, by simp [hlen]⟩
      simp only [List.getD_cons_succ]
      rw [List.cons_append, ← hdec]

/-- Swap-with-last removal: replacing the element at position `i` by the last
element and dropping the last entry removes exactly one occurrence of the
element at `i`; on a duplicate-free list, mapping any function that agrees
with `f` away from that element sums to the original sum minus its value. -/
theorem swap_remove_sum (f : Nat → Nat) (l : List Nat) (i a : Nat)
    (hnodup : l.Nodup) (hi : i < l.length) (hget : l.getD i 0 = a)
    (g : Nat → Nat) (hg : ∀ x, x ≠ a → g x = f x) :
    (((if i = l.length - 1 then l
        else l.set i (l.getD (l.length - 1) 0)).dropLast).map g).sum + f a =
      (l.map f).sum := by
  obtain ⟨u, v, hdec, hulen⟩ := exists_decomp l i hi
  rw [hget] at hdec
  subst hdec
  subst hulen
  have hnd := List.nodup_middle.mp hnodup
  rw [List.nodup_cons] at hnd
  have hnotin_u : a ∉ u := fun hm => hnd.1 (by simp [hm])
  have hnotin_v : a ∉ v := fun hm => hnd.1 (by simp [hm])
  rcases List.eq_nil_or_concat' v with rfl | ⟨w, b, rfl⟩
  · have hcond : u.length = (u ++ a :: []).length - 1 := by simp
    rw [if_pos hcond]
    rw [show u ++ a :: [] = u ++ [a] from rfl, List.dropLast_concat]
    have hmapcongr : u.map g = u.map f :=
      List.map_congr_left (fun x hx => hg x (fun he => hnotin_u (he ▸ hx)))
    rw [hmapcongr]
    simp only [List.map_append, List.map_cons, List.map_nil, List.sum_append,
      List.sum_cons, List.sum_nil]
    omega
  · have hcond : ¬ (u.length = (u ++ a :: (w ++ [b])).length - 1) := by
      simp only [List.length_append, List.length_cons, List.length_nil]
      omega
    rw [if_neg hcond]
    have hgetb : (u ++ a :: (w ++ [b])).getD ((u ++ a :: (w ++ [b])).length - 1) 0 = b := by
      have hpos : (u ++ a :: (w ++ [b])).length - 1 = (u ++ a :: w).length := by
        simp only [List.length_append, List.length_cons, List.length_nil]
        omega
      have hform : u ++ a :: (w ++ [b]) = (u ++ a :: w) ++ b :: [] := by simp
      rw [hpos, hform, getD_at_append]
    rw [hgetb, set_at_append]
    have hdrop : (u ++ b :: (w ++ [b])).dropLast = u ++ b :: w := by
      rw [show u ++ b :: (w ++ [b]) = (u ++ b :: w) ++ [b] by simp, List.dropLast_concat]
    rw [hdrop]
    have ha_ne_b : a ≠ b := fun he => hnotin_v (by simp [he])
    have hnotin_w : a ∉ w := fun hm => hnotin_v (by simp [hm])
    have hmapcongr : (u ++ b :: w).map g = (u ++ b :: w).map f := by
      refine List.map_congr_left ?_
      intro x hx
      refine hg x ?_
      intro he
      subst he
      rcases List.mem_append.mp hx with h | h
      · exact hnotin_u h
      · rcases List.mem_cons.mp h with h | h
        · exact ha_ne_b h
        · exact hnotin_w h
    rw [hmapcongr]
    simp only [List.map_append, List.map_cons, List.map_nil, List.sum_append,
      List.sum_cons, List.sum_nil]
    omega

/-- C9: on a well-formed state, a successful unstake leaves the staker's
total reward amount unchanged at the same block timestamp: the pending reward
of the unstaked token moves into accumulatedRewards exactly as it leaves the
pending sum, with every other staked token's pending reward untouched. -/
theorem unstake_preserves_reward_amount (s : StakingState) (sender now tokenId : Nat)
    (s2 : StakingState) (hwf : WF s sender)
    (hok : unstake s sender now tokenId = .ok s2) :
    getRewardAmount s2 now sender = getRewardAmount s now sender := by
  obtain ⟨hnodup, hstall, hindex, hmemall⟩ := hwf
  obtain ⟨hown, hst, hper, hlen, hbound, hs2⟩ := unstake_ok_spec hok
  have htok : tokenId ∈ s.stakedByOwner sender := hmemall tokenId hst hown
  obtain ⟨hidxlt, hidxget⟩ := hindex tokenId htok
  have hacc2 : s2.accumulatedRewards sender =
      s.accumulatedRewards sender + calculateReward s now tokenId := by
    rw [hs2]; simp [updFn_same]
  have hlist2 : s2.stakedByOwner sender =
      (if s.stakedIndex tokenId = (s.stakedByOwner sender).length - 1
        then s.stakedByOwner sender
        else (s.stakedByOwner sender).set (s.stakedIndex tokenId)
          ((s.stakedByOwner sender).getD ((s.stakedByOwner sender).length - 1) 0)).dropLast := by
    rw [hs2]; simp [updFn_same]
  have hcalc2 : ∀ x, x ≠ tokenId → calculateReward s2 now x = calculateReward s now x := by
    intro x hx
    have h1 : s2.stakedTokens x = s.stakedTokens x := by
      rw [hs2]; exact updFn_ne _ _ _ _ hx
    have h2 : s2.rewardRate = s.rewardRate := by rw [hs2]
    rw [calculateReward, calculateReward, h1, h2]
  have hsum := swap_remove_sum (calculateReward s now) (s.stakedByOwner sender)
    (s.stakedIndex tokenId) tokenId hnodup hidxlt hidxget (calculateReward s2 now) hcalc2
  rw [getRewardAmount, getRewardAmount, hacc2, hlist2]
  omega

/-- Witness for C9: unstaking token 7 at one day leaves address 1's total
reward amount unchanged (the 10 pending units move into the accumulator). -/
theorem unstake_preserves_reward_amount_witness :
    getRewardAmount sampleUnstaked 86400 1 = getRewardAmount sampleStaked 86400 1 := by
  have hwf : WF sampleStaked 1 := by
    refine ⟨by decide, by decide, by decide, ?_⟩
    intro t h1 h2
    by_cases ht : t = 7
    · subst ht; decide
    · exact absurd h1 (by simp [sampleStaked, ht])
  exact unstake_preserves_reward_amount sampleStaked 1 86400 7 sampleUnstaked hwf rfl

end NFTStaking
